import Mathlib

/-!
Verification model of the onlyati datastore library.

The Rust source keeps three pieces of state: a hierarchical key-value
tree (module datastore), a registry of HTTP hooks (module hook) and an
append-only logger (module logger). This file embeds each of them as
executable Lean definitions, translated from the Rust functions, and
proves or refutes the specified properties about them.

Modelling conventions:
  - BTreeMap is modelled as an association list kept sorted by the
    comparison the map uses in the source. Lookup is by structural key
    equality, which agrees with comparator equality because the orders
    the maps use (the derived Ord of KeyType, the byte order of String)
    are lawful total orders.
  - Rust String order compares UTF-8 bytes; the character-list order
    used here agrees with it on valid UTF-8, since UTF-8 preserves
    code-point order.
  - File input and output is modelled by carrying the file content as a
    list of lines inside the state; opening a file always succeeds in
    the model.
  - A Rust panic (an out-of-bounds slice) is the Res.panic outcome.
-/

namespace DatastoreRS

/-- Comparison of two characters by code point, as Rust compares the
corresponding UTF-8 bytes. -/
def chCmp (a b : Char) : Ordering :=
  if a.toNat < b.toNat then Ordering.lt
  else if b.toNat < a.toNat then Ordering.gt
  else Ordering.eq

/-- Lexicographic comparison of two character lists. -/
def chListCmp : List Char → List Char → Ordering
  | [], [] => Ordering.eq
  | [], _ :: _ => Ordering.lt
  | _ :: _, [] => Ordering.gt
  | a :: as, b :: bs =>
    match chCmp a b with
    | Ordering.eq => chListCmp as bs
    | o => o

/-- The order of Rust Strings: lexicographic on the character sequence. -/
def strCmp (a b : String) : Ordering :=
  chListCmp a.data b.data

theorem chCmp_self (a : Char) : chCmp a a = Ordering.eq := by
  simp [chCmp]

theorem chListCmp_self (l : List Char) : chListCmp l l = Ordering.eq := by
  induction l with
  | nil => rfl
  | cons a as ih => simp [chListCmp, chCmp_self, ih]

theorem strCmp_self (s : String) : strCmp s s = Ordering.eq := by
  simp [strCmp, chListCmp_self]

/-- Key type of the datastore, from enum KeyType in datastore/enums/pair.rs:
a Table, Record or Queue tag over the full key string. -/
inductive KeyType where
  | Table (key : String)
  | Record (key : String)
  | Queue (key : String)
deriving DecidableEq, Repr

/-- KeyType::get_key. -/
def KeyType.get_key : KeyType → String
  | KeyType.Table k => k
  | KeyType.Record k => k
  | KeyType.Queue k => k

/-- KeyType::is_table. -/
def KeyType.is_table : KeyType → Bool
  | KeyType.Table _ => true
  | _ => false

/-- KeyType::is_record. -/
def KeyType.is_record : KeyType → Bool
  | KeyType.Record _ => true
  | _ => false

/-- KeyType::is_queue. -/
def KeyType.is_queue : KeyType → Bool
  | KeyType.Queue _ => true
  | _ => false

/-- The discriminant of KeyType in declaration order (Table, Record,
Queue), the first component the derived Ord of Rust compares. -/
def keyDiscriminant : KeyType → Nat
  | KeyType.Table _ => 0
  | KeyType.Record _ => 1
  | KeyType.Queue _ => 2

/-- The derived Ord of KeyType, which the BTreeMap of the datastore
uses for lookup, insertion and iteration order: discriminant first,
then the name string. The manual PartialOrd impl of the source is
keyPartialCmp below; BTreeMap never calls it. -/
def keyCmp (a b : KeyType) : Ordering :=
  if keyDiscriminant a < keyDiscriminant b then Ordering.lt
  else if keyDiscriminant b < keyDiscriminant a then Ordering.gt
  else strCmp a.get_key b.get_key

theorem keyCmp_self (k : KeyType) : keyCmp k k = Ordering.eq := by
  simp [keyCmp, strCmp_self]

/-- The manual impl PartialOrd for KeyType of the source, faithfully
including its self-comparison: other_key is read from self, so the
name comparison in the final line is dead code. -/
def keyPartialCmp (a b : KeyType) : Option Ordering :=
  let self_key := a.get_key
  let other_key := a.get_key
  if self_key = other_key then
    (if a.is_table && b.is_record then some Ordering.gt
     else if a.is_record && b.is_table then some Ordering.lt
     else some Ordering.eq)
  else some (strCmp self_key other_key)

mutual
/-- The value side of the tree, from enum ValueType: a nested table, a
string record, or a queue of strings. -/
inductive ValueType where
  | TablePointer (t : Table)
  | RecordPointer (s : String)
  | QueuePointer (q : List String)
/-- type Table = BTreeMap of KeyType to ValueType, as the association
list the BTreeMap iterates: kept sorted by keyCmp. -/
inductive Table where
  | nil : Table
  | cons (k : KeyType) (v : ValueType) (rest : Table) : Table
end

/-- BTreeMap::get, with lookup by key equality (the derived Ord of
KeyType is a lawful total order, so comparator equality is equality). -/
def tableGet : Table → KeyType → Option ValueType
  | Table.nil, _ => none
  | Table.cons k2 v2 rest, k => if k = k2 then some v2 else tableGet rest k

/-- BTreeMap::insert: place the binding at its sorted position,
replacing an existing binding of the same key. -/
def tableInsert : Table → KeyType → ValueType → Table
  | Table.nil, k, v => Table.cons k v Table.nil
  | Table.cons k2 v2 rest, k, v =>
    match keyCmp k k2 with
    | Ordering.lt => Table.cons k v (Table.cons k2 v2 rest)
    | Ordering.eq => Table.cons k v rest
    | Ordering.gt => Table.cons k2 v2 (tableInsert rest k v)

/-- BTreeMap::remove: drop the binding of the key, returning the old
value when there was one. -/
def tableRemove : Table → KeyType → Option ValueType × Table
  | Table.nil, _ => (none, Table.nil)
  | Table.cons k2 v2 rest, k =>
    if k = k2 then (some v2, rest)
    else
      match tableRemove rest k with
      | (r, t2) => (r, Table.cons k2 v2 t2)

/-- BTreeMap::entry(k).or_insert(v): keep the map when the key is
present, else insert the binding. -/
def orInsert (t : Table) (k : KeyType) (v : ValueType) : Table :=
  match tableGet t k with
  | some _ => t
  | none => tableInsert t k v

/-- Error enum of datastore/enums/error.rs. -/
inductive ErrorKind where
  | InvalidRoot (msg : String)
  | InvalidKey (msg : String)
  | InternalError (msg : String)
  | InactiveHookManager
  | LogError (msg : String)
deriving DecidableEq, Repr

/-- Outcome of a datastore call: a Rust panic, an Err, or an Ok value. -/
inductive Res (α : Type) where
  | panic : Res α
  | error (e : ErrorKind) : Res α
  | ok (a : α) : Res α
deriving DecidableEq, Repr

/-- Sequencing of datastore outcomes. -/
def Res.andThen {α β : Type} (r : Res α) (f : α → Res β) : Res β :=
  match r with
  | Res.panic => Res.panic
  | Res.error e => Res.error e
  | Res.ok a => f a

/-- Splitting a character list at every slash, as str::split does:
empty segments between adjacent separators are produced and filtered
away by the caller. -/
def splitSlashAux : List Char → List Char → List String
  | [], acc => [String.mk acc.reverse]
  | c :: cs, acc =>
    if c = '/' then String.mk acc.reverse :: splitSlashAux cs []
    else splitSlashAux cs (c :: acc)

/-- key_string.split on a slash with the empty pieces dropped, as
validate_key builds the route list. -/
def segmentsOf (s : String) : List String :=
  (splitSlashAux s.data []).filter (fun seg => seg ≠ "")

/-- validate_key of datastore/utilities/internal.rs. The source slices
the first byte of the key; on the empty string, or when the first
character is wider than one byte, that slice panics. -/
def validateKey (key_string : String) (db_name : String) : Res (List String) :=
  match key_string.data with
  | [] => Res.panic
  | c :: _ =>
    if c.utf8Size ≠ 1 then Res.panic
    else if c ≠ '/' then
      Res.error (ErrorKind.InvalidKey "Key must begin with '/' sign")
    else
      match segmentsOf key_string with
      | [] =>
        Res.error (ErrorKind.InvalidKey
          "Key must contain at least 1 items, e.g.: /root/status")
      | s0 :: rest =>
        if s0 ≠ db_name then
          Res.error (ErrorKind.InvalidKey "Key does not begin with the root table")
        else Res.ok (s0 :: rest)

/-- find_table of datastore/utilities/internal.rs: walk the routes
through TablePointer children. -/
def findTable : Table → List String → Option Table
  | t, [] => some t
  | t, r :: rs =>
    match tableGet t (KeyType.Table r) with
    | some (ValueType.TablePointer sub) => findTable sub rs
    | _ => none

/-- The descent loop of Database::insert. The loop guard of the source
compares the current route with the LAST route by value, so it stops at
the first segment equal to the last one; the terminal insert always
uses a Record key. The empty-list case is the out-of-bounds index the
source would hit if the guard never matched; it is unreachable when the
function receives the full route list, whose last element matches. -/
def insertWalk (last : String) (value : ValueType) : Table → List String → Res Table
  | _, [] => Res.panic
  | t, cur :: rest =>
    if cur = last then Res.ok (tableInsert t (KeyType.Record last) value)
    else
      match tableGet (orInsert t (KeyType.Table cur) (ValueType.TablePointer Table.nil))
          (KeyType.Table cur) with
      | some (ValueType.TablePointer sub) =>
        match insertWalk last value sub rest with
        | Res.ok sub2 =>
          Res.ok (tableInsert
            (orInsert t (KeyType.Table cur) (ValueType.TablePointer Table.nil))
            (KeyType.Table cur) (ValueType.TablePointer sub2))
        | Res.error e => Res.error e
        | Res.panic => Res.panic
      | some _ => Res.error (ErrorKind.InternalError "This should not have happen")
      | none => Res.error (ErrorKind.InternalError "This should not have happen")

/-- find_table_mut over the routes followed by BTreeMap::remove of the
key, as Database::delete_key and delete_table use it: the mutation of
the table found at the end of the walk is the functional rebuild of the
tables along the path. -/
def deleteAt : Table → List String → KeyType → Res Table
  | t, [], k =>
    match tableRemove t k with
    | (some _, t2) => Res.ok t2
    | (none, _) => Res.error (ErrorKind.InvalidKey "Specified key does not exist")
  | t, r :: rs, k =>
    match tableGet t (KeyType.Table r) with
    | some (ValueType.TablePointer sub) =>
      match deleteAt sub rs k with
      | Res.ok sub2 =>
        Res.ok (tableInsert t (KeyType.Table r) (ValueType.TablePointer sub2))
      | Res.error e => Res.error e
      | Res.panic => Res.panic
    | _ => Res.error (ErrorKind.InvalidKey "Specified key does not exist")

/-- ListType of datastore/enums/mod.rs. -/
inductive ListType where
  | OneLevel
  | All
deriving DecidableEq, Repr

mutual
/-- display_tables of datastore/utilities/internal.rs: iterate the
table in its order; Record and Queue children are emitted under the
extended prefix, Table children are skipped on OneLevel and recursed
into on All. -/
def displayTables : Table → String → ListType → List KeyType
  | Table.nil, _, _ => []
  | Table.cons (KeyType.Record name) _ rest, pre, lvl =>
    KeyType.Record (pre ++ "/" ++ name) :: displayTables rest pre lvl
  | Table.cons (KeyType.Queue name) _ rest, pre, lvl =>
    KeyType.Queue (pre ++ "/" ++ name) :: displayTables rest pre lvl
  | Table.cons (KeyType.Table name) v rest, pre, lvl =>
    displayTableEntry name v pre lvl ++ displayTables rest pre lvl
/-- One Table child of display_tables: nothing on OneLevel, the
recursive listing on All, nothing when the value is no table. -/
def displayTableEntry : String → ValueType → String → ListType → List KeyType
  | _, _, _, ListType.OneLevel => []
  | name, ValueType.TablePointer sub, pre, ListType.All =>
    displayTables sub (pre ++ "/" ++ name) ListType.All
  | _, _, _, ListType.All => []
end

/-- The Database struct: the configured root name and the root table. -/
structure Database where
  name : String
  root : Table

/-- Database::new: reject a root name holding a slash. -/
def dbNew (root_name : String) : Res Database :=
  if root_name.data.contains '/' then
    Res.error (ErrorKind.InvalidRoot "Root name cannot contains '/' character")
  else Res.ok { name := root_name, root := Table.nil }

/-- Database::insert: validate the key, walk the route with
insertWalk, store the rebuilt root. -/
def dbInsert (db : Database) (key : KeyType) (value : ValueType) : Res Database :=
  match validateKey key.get_key db.name with
  | Res.panic => Res.panic
  | Res.error e => Res.error e
  | Res.ok key_routes =>
    match key_routes.getLast? with
    | none => Res.panic
    | some last =>
      match insertWalk last value db.root key_routes with
      | Res.ok t => Res.ok { db with root := t }
      | Res.error e => Res.error e
      | Res.panic => Res.panic

/-- Database::get: reject a Table key, validate, walk all but the last
route, and look the Record key up in the table found. -/
def dbGetK (db : Database) (key : KeyType) : Res ValueType :=
  if key.is_table then
    Res.error (ErrorKind.InvalidKey "Parameter must be a Record type")
  else
    match validateKey key.get_key db.name with
    | Res.panic => Res.panic
    | Res.error e => Res.error e
    | Res.ok key_routes =>
      match key_routes.getLast? with
      | none => Res.panic
      | some last =>
        match findTable db.root key_routes.dropLast with
        | none => Res.error (ErrorKind.InvalidKey "Specified key does not exist")
        | some t =>
          match tableGet t (KeyType.Record last) with
          | some v => Res.ok v
          | none => Res.error (ErrorKind.InvalidKey "Specified key does not exist")

/-- Database::list_keys: reject a Table key, validate, walk the whole
route (the last segment included), and render the table found. -/
def dbListKeysK (db : Database) (keyPre : KeyType) (level : ListType) :
    Res (List KeyType) :=
  if keyPre.is_table then
    Res.error (ErrorKind.InvalidKey "Parameter must be a Record type")
  else
    match validateKey keyPre.get_key db.name with
    | Res.panic => Res.panic
    | Res.error e => Res.error e
    | Res.ok key_routes =>
      match findTable db.root key_routes with
      | none => Res.error (ErrorKind.InvalidKey "Specified route does not exist")
      | some t => Res.ok (displayTables t keyPre.get_key level)

/-- Database::delete_key: reject a Table key, validate, walk all but
the last route and remove the Record entry of the last segment. -/
def dbDeleteKey (db : Database) (key : KeyType) : Res Database :=
  if key.is_table then
    Res.error (ErrorKind.InvalidKey "Parameter must be a Record type")
  else
    match validateKey key.get_key db.name with
    | Res.panic => Res.panic
    | Res.error e => Res.error e
    | Res.ok key_routes =>
      match key_routes.getLast? with
      | none => Res.panic
      | some last =>
        match deleteAt db.root key_routes.dropLast (KeyType.Record last) with
        | Res.ok t => Res.ok { db with root := t }
        | Res.error e => Res.error e
        | Res.panic => Res.panic

/-- Database::delete_table: reject a Record key, validate, walk all but
the last route and remove the Table entry of the last segment with its
whole subtree. -/
def dbDeleteTable (db : Database) (key : KeyType) : Res Database :=
  if key.is_record then
    Res.error (ErrorKind.InvalidKey "Parameter must be a Table type")
  else
    match validateKey key.get_key db.name with
    | Res.panic => Res.panic
    | Res.error e => Res.error e
    | Res.ok key_routes =>
      match key_routes.getLast? with
      | none => Res.panic
      | some last =>
        match deleteAt db.root key_routes.dropLast (KeyType.Table last) with
        | Res.ok t => Res.ok { db with root := t }
        | Res.error e => Res.error e
        | Res.panic => Res.panic

/-- The Set action of the worker loop in datastore/utilities/mod.rs:
insert a Record key with a RecordPointer value. -/
def dbSet (db : Database) (key value : String) : Res Database :=
  dbInsert db (KeyType.Record key) (ValueType.RecordPointer value)

/-- The Get action of the worker loop: get a Record key. -/
def dbGet (db : Database) (key : String) : Res ValueType :=
  dbGetK db (KeyType.Record key)

/-- The DeleteKey action of the worker loop. -/
def dbDeleteKeyS (db : Database) (key : String) : Res Database :=
  dbDeleteKey db (KeyType.Record key)

/-- The DeleteTable action of the worker loop: the key is Table
tagged. -/
def dbDeleteTableS (db : Database) (key : String) : Res Database :=
  dbDeleteTable db (KeyType.Table key)

/-- The ListKeys action of the worker loop. -/
def dbListKeys (db : Database) (key : String) (level : ListType) :
    Res (List KeyType) :=
  dbListKeysK db (KeyType.Record key) level

/-- The freshly created database of root name root, as dbNew builds
it. -/
def dbRoot0 : Database := { name := "root", root := Table.nil }

mutual
/-- Whether a stored value has the variant its key demands, as claim I3
of the spec states it: a Table key holds a TablePointer whose table
again satisfies the invariant, a Record key holds a RecordPointer, and
nothing else is allowed (in particular no Queue key occurs). -/
def entryOk : KeyType → ValueType → Bool
  | KeyType.Table _, ValueType.TablePointer t => tableOk t
  | KeyType.Record _, ValueType.RecordPointer _ => true
  | _, _ => false
/-- entryOk at every binding of the table, recursively. -/
def tableOk : Table → Bool
  | Table.nil => true
  | Table.cons k v rest => entryOk k v && tableOk rest
end

/-- Induction over the spine of a table, ignoring the nested values. -/
theorem tableSpineInd {motive : Table → Prop} (hnil : motive Table.nil)
    (hcons : ∀ k v rest, motive rest → motive (Table.cons k v rest)) :
    ∀ t, motive t :=
  Table.rec (motive_1 := fun _ => True) (motive_2 := motive)
    (fun _ _ => trivial) (fun _ => trivial) (fun _ => trivial)
    hnil (fun k v rest _ ih => hcons k v rest ih)

theorem tableOk_cons {k : KeyType} {v : ValueType} {rest : Table} :
    tableOk (Table.cons k v rest) = (entryOk k v && tableOk rest) := by
  rfl

/-- Looking a key up in a table satisfying the invariant yields a value
fitting that key. -/
theorem tableGet_entryOk {k : KeyType} {v : ValueType} :
    ∀ {t : Table}, tableOk t = true → tableGet t k = some v → entryOk k v = true := by
  intro t
  induction t using tableSpineInd with
  | hnil => intro _ h; simp [tableGet] at h
  | hcons k2 v2 rest ih =>
    intro hok hget
    rw [tableOk_cons, Bool.and_eq_true] at hok
    by_cases hk : k = k2
    · subst hk
      simp [tableGet] at hget
      subst hget
      exact hok.1
    · simp [tableGet, hk] at hget
      exact ih hok.2 hget

/-- Inserting a fitting value keeps the invariant. -/
theorem tableOk_insert {k : KeyType} {v : ValueType} :
    ∀ {t : Table}, tableOk t = true → entryOk k v = true →
      tableOk (tableInsert t k v) = true := by
  intro t
  induction t using tableSpineInd with
  | hnil => intro _ hv; simp [tableInsert, tableOk, entryOk, hv]
  | hcons k2 v2 rest ih =>
    intro hok hv
    rw [tableOk_cons, Bool.and_eq_true] at hok
    rw [tableInsert]
    cases hcmp : keyCmp k k2 with
    | lt =>
      rw [tableOk_cons, Bool.and_eq_true]
      exact ⟨hv, by rw [tableOk_cons, Bool.and_eq_true]; exact hok⟩
    | eq =>
      rw [tableOk_cons, Bool.and_eq_true]
      exact ⟨hv, hok.2⟩
    | gt =>
      rw [tableOk_cons, Bool.and_eq_true]
      exact ⟨hok.1, ih hok.2 hv⟩

/-- or_insert with a fitting default keeps the invariant. -/
theorem tableOk_orInsert {k : KeyType} {v : ValueType} {t : Table}
    (hok : tableOk t = true) (hv : entryOk k v = true) :
    tableOk (orInsert t k v) = true := by
  rw [orInsert]
  cases h : tableGet t k with
  | none => exact tableOk_insert hok hv
  | some _ => exact hok

/-- Removing a binding keeps the invariant. -/
theorem tableOk_remove {k : KeyType} :
    ∀ {t : Table}, tableOk t = true → tableOk (tableRemove t k).2 = true := by
  intro t
  induction t using tableSpineInd with
  | hnil => intro _; simp [tableRemove, tableOk]
  | hcons k2 v2 rest ih =>
    intro hok
    rw [tableOk_cons, Bool.and_eq_true] at hok
    rw [tableRemove]
    by_cases hk : k = k2
    · simp only [hk, if_pos rfl]
      exact hok.2
    · simp only [if_neg hk]
      rw [tableOk_cons, Bool.and_eq_true]
      exact ⟨hok.1, ih hok.2⟩

/-- The descent of insert with a Record value keeps the invariant. -/
theorem insertWalk_tableOk {last : String} {v : String} :
    ∀ (routes : List String) {t t2 : Table}, tableOk t = true →
      insertWalk last (ValueType.RecordPointer v) t routes = Res.ok t2 →
      tableOk t2 = true := by
  intro routes
  induction routes with
  | nil => intro t t2 _ h; simp [insertWalk] at h
  | cons cur rest ih =>
    intro t t2 hok h
    rw [insertWalk] at h
    by_cases hcur : cur = last
    · rw [if_pos hcur] at h
      cases h
      exact tableOk_insert hok (by rfl)
    · rw [if_neg hcur] at h
      have h1 : tableOk (orInsert t (KeyType.Table cur)
          (ValueType.TablePointer Table.nil)) = true :=
        tableOk_orInsert hok (by rfl)
      split at h
      case _ sub hget =>
        split at h
        case _ sub2 hrec =>
          cases h
          exact tableOk_insert h1 (ih (tableGet_entryOk h1 hget) hrec)
        case _ => cases h
        case _ => cases h
      case _ => cases h
      case _ => cases h

/-- The delete walk keeps the invariant. -/
theorem deleteAt_tableOk {k : KeyType} :
    ∀ (routes : List String) {t t2 : Table}, tableOk t = true →
      deleteAt t routes k = Res.ok t2 → tableOk t2 = true := by
  intro routes
  induction routes with
  | nil =>
    intro t t2 hok h
    rw [deleteAt] at h
    split at h
    case _ old t3 hrem =>
      cases h
      have := tableOk_remove (k := k) (t := t) hok
      rw [hrem] at this
      exact this
    case _ => cases h
  | cons r rs ih =>
    intro t t2 hok h
    rw [deleteAt] at h
    split at h
    case _ sub hget =>
      split at h
      case _ sub2 hrec =>
        cases h
        exact tableOk_insert hok (ih (tableGet_entryOk hok hget) hrec)
      case _ => cases h
      case _ => cases h
    case _ => cases h

/-- A single quote character, used by the log item rendering. -/
def sq : String := String.singleton (Char.ofNat 39)

/-- LogItem of logger/enums/mod.rs (the string slices owned). -/
inductive LogItem where
  | SetKey (key value : String)
  | GetKey (key : String)
  | RemKey (key : String)
  | RemPath (key : String)
  | ListKeys (key : String)
  | SetHook (pfx link : String)
  | GetHook (pfx link : String)
  | RemHook (pfx link : String)
  | ListHooks (pfx : String)
  | HookExecute (pfx : String) (links : List String)
deriving DecidableEq, Repr

/-- The Display impl of LogItem. The links of HookExecute are printed
with the debug formatter of Vec in the source; that rendering is
abstracted as toString of the list. -/
def displayItem : LogItem → String
  | LogItem.SetKey k v => "SetKey [ " ++ sq ++ k ++ sq ++ ", " ++ sq ++ v ++ sq ++ " ]"
  | LogItem.GetKey k => "GetKey [ " ++ sq ++ k ++ sq ++ " ]"
  | LogItem.RemKey k => "RemKey [ " ++ sq ++ k ++ sq ++ " ]"
  | LogItem.RemPath k => "RemPath [ " ++ sq ++ k ++ sq ++ " ]"
  | LogItem.ListKeys k => "ListKeys [ " ++ sq ++ k ++ sq ++ " ]"
  | LogItem.SetHook p l => "SetHook [ " ++ sq ++ p ++ sq ++ ", " ++ sq ++ l ++ sq ++ " ]"
  | LogItem.GetHook p l => "GetHook [ " ++ sq ++ p ++ sq ++ ", " ++ sq ++ l ++ sq ++ " ]"
  | LogItem.RemHook p l => "RemHook [ " ++ sq ++ p ++ sq ++ ", " ++ sq ++ l ++ sq ++ " ]"
  | LogItem.ListHooks p => "ListHooks [ " ++ sq ++ p ++ sq ++ " ]"
  | LogItem.HookExecute p ls =>
    "HookExecute [ " ++ sq ++ p ++ sq ++ ", " ++ sq ++ toString ls ++ sq ++ " ]"

/-- The line a write produces: the timestamp, a space, the item. -/
def lineOf (now : String) (item : LogItem) : String :=
  now ++ " " ++ displayItem item

/-- LogState of logger/enums/mod.rs. -/
inductive LogState where
  | Close
  | Open
  | Suspended
deriving DecidableEq, Repr

/-- LoggerManager of logger/mod.rs. The file handle is Option Unit, and
the content of the file at path is carried as fileLines so that writes
are observable; a timestamp is a string supplied by the caller of
write, standing for Utc::now. -/
structure LoggerManager where
  path : String
  state : LogState
  file : Option Unit
  buffer : List (String × LogItem)
  fileLines : List String
deriving DecidableEq, Repr

/-- LoggerManager::new: state Close, no handle, empty buffer. The model
starts with an empty file at the path. -/
def LoggerManager.new (path : String) : LoggerManager :=
  { path := path, state := LogState.Close, file := none, buffer := [], fileLines := [] }

/-- LoggerManager::start: open the file in create-append mode (the
model always succeeds), keep its content, state Open. -/
def LoggerManager.start (m : LoggerManager) : Except String LoggerManager :=
  Except.ok { m with file := some (), state := LogState.Open }

/-- LoggerManager::stop: drop the file handle when one is held, else
report that the manager does not run. The state field is untouched. -/
def LoggerManager.stop (m : LoggerManager) : Except String LoggerManager :=
  match m.file with
  | some _ => Except.ok { m with file := none }
  | none => Except.error "Logger manager does not run"

/-- LoggerManager::suspend: drop the handle, state Suspended. -/
def LoggerManager.suspend (m : LoggerManager) : Except String LoggerManager :=
  Except.ok { m with file := none, state := LogState.Suspended }

/-- LoggerManager::resume: only from Suspended; reopen as start does,
append one line per buffered pair in insertion order, empty the buffer,
state Open. -/
def LoggerManager.resume (m : LoggerManager) : Except String LoggerManager :=
  if m.state ≠ LogState.Suspended then
    Except.error "Only possible resume from LogState::Suspend"
  else
    Except.ok { m with
      file := some (),
      state := LogState.Open,
      buffer := [],
      fileLines := m.fileLines ++ m.buffer.map (fun ti => lineOf ti.1 ti.2) }

/-- LoggerManager::write at the clock reading now: error from Close,
a direct file line from Open (error when the handle is gone), a
buffered pair from Suspended. -/
def LoggerManager.write (m : LoggerManager) (now : String) (item : LogItem) :
    Except String LoggerManager :=
  match m.state with
  | LogState.Close => Except.error "Stream is closed, start required for logger"
  | LogState.Open =>
    match m.file with
    | some _ => Except.ok { m with fileLines := m.fileLines ++ [lineOf now item] }
    | none => Except.error "wanted to write log while logging was not started"
  | LogState.Suspended => Except.ok { m with buffer := m.buffer ++ [(now, item)] }

/-- A sequence of write calls, each with its clock reading, stopping at
the first error. -/
def writeMany (m : LoggerManager) : List (String × LogItem) →
    Except String LoggerManager
  | [] => Except.ok m
  | ti :: rest =>
    match m.write ti.1 ti.2 with
    | Except.ok m2 => writeMany m2 rest
    | Except.error e => Except.error e

/-- Responses of the hook manager, from hook/enums. -/
inductive HookManagerResponse where
  | Ok
  | Error (msg : String)
  | Hook (pfx : String) (links : List String)
  | HookList (hooks : List (String × List String))
deriving DecidableEq, Repr

/-- The registry of HookManager: BTreeMap of prefix to links, as the
sorted association list the BTreeMap iterates. -/
abbrev HookReg := List (String × List String)

/-- BTreeMap::get on the registry, by key equality. -/
def regGet : HookReg → String → Option (List String)
  | [], _ => none
  | (k2, v2) :: rest, k => if k = k2 then some v2 else regGet rest k

/-- BTreeMap::insert on the registry: sorted position by the string
order, replacing an existing binding. -/
def regInsert : HookReg → String → List String → HookReg
  | [], k, v => [(k, v)]
  | (k2, v2) :: rest, k, v =>
    match strCmp k k2 with
    | Ordering.lt => (k, v) :: (k2, v2) :: rest
    | Ordering.eq => (k, v) :: rest
    | Ordering.gt => (k2, v2) :: regInsert rest k v

/-- HookManager::add: push the link under the prefix, creating the
entry when absent, refusing a link already present under the prefix. -/
def hookAdd (hm : HookReg) (pfx link : String) :
    Except HookManagerResponse HookReg :=
  match regGet hm pfx with
  | some hooks =>
    match hooks.findIdx? (fun x => x == link) with
    | some _ => Except.error (HookManagerResponse.Error "Already defined")
    | none => Except.ok (regInsert hm pfx (hooks ++ [link]))
  | none => Except.ok (regInsert hm pfx [link])

/-- HookManager::remove: drop the first occurrence of the link under
the prefix; Not found when the prefix or the link is absent. The entry
itself stays, possibly with an empty link list. -/
def hookRemove (hm : HookReg) (pfx link : String) :
    Except HookManagerResponse HookReg :=
  match regGet hm pfx with
  | some hooks =>
    match hooks.findIdx? (fun x => x == link) with
    | some index => Except.ok (regInsert hm pfx (hooks.eraseIdx index))
    | none => Except.error (HookManagerResponse.Error "Not found")
  | none => Except.error (HookManagerResponse.Error "Not found")

/-- HookManager::get: a clone of the links under the exact prefix. -/
def hookGet (hm : HookReg) (pfx : String) : Option (List String) :=
  regGet hm pfx

/-- The Get action of the hook worker loop in hook/utilities/mod.rs:
Hook(prefix, links) when present, Error Not found when absent. -/
def hookGetResponse (hm : HookReg) (pfx : String) : HookManagerResponse :=
  match regGet hm pfx with
  | some hooks => HookManagerResponse.Hook pfx hooks
  | none => HookManagerResponse.Error "Not found"

/-- Whether the first list is a prefix of the second, character by
character. -/
def isPrefixList : List Char → List Char → Bool
  | [], _ => true
  | _ :: _, [] => false
  | a :: as, b :: bs => a == b && isPrefixList as bs

/-- str::starts_with of Rust: pre is a prefix of s. -/
def strStartsWith (s pre : String) : Bool :=
  isPrefixList pre.data s.data

/-- HookManager::list: every stored entry whose prefix starts with the
query. -/
def hookList (hm : HookReg) (key : String) : HookReg :=
  hm.filter (fun e => strStartsWith e.1 key)

/-- One outbound POST request of execute_hooks: the target link and the
JSON body fields. -/
structure Post where
  link : String
  key : String
  value : String
deriving DecidableEq, Repr

/-- The requests HookManager::execute_hooks issues, in order: for every
stored prefix the key starts with, one POST per link. -/
def executeHooksPosts : HookReg → String → String → List Post
  | [], _, _ => []
  | (pfx, links) :: rest, key, value =>
    (if strStartsWith key pfx then links.map (fun l => Post.mk l key value) else [])
      ++ executeHooksPosts rest key value

/-- The two's-complement wrap of a count into the i32 range, as the
counter of execute_hooks accumulates in release builds (a debug build
panics on the overflowing increment instead). -/
def wrapI32 (n : Nat) : Int :=
  if n % 4294967296 < 2147483648 then ((n % 4294967296 : Nat) : Int)
  else ((n % 4294967296 : Nat) : Int) - 4294967296

/-- HookManager::execute_hooks: the list of POSTs it attempts and its
return value. The counter is an i32 incremented once per attempt, so
the number of attempts is wrapped into the i32 range; the result is
none when the wrapped counter is zero, else the wrapped counter. -/
def executeHooks (hm : HookReg) (key value : String) : List Post × Option Int :=
  let posts := executeHooksPosts hm key value
  let counter := wrapI32 posts.length
  (posts, if counter = 0 then none else some counter)

/-- The links of every stored prefix the key starts with, in registry
order: the independent description the execute_hooks theorems compare
against. -/
def matchingLinks (hm : HookReg) (key : String) : List String :=
  (hm.filter (fun e => strStartsWith key e.1)).foldr (fun e acc => e.2 ++ acc) []

/-- The database states reachable through the public Database methods
that mutate state, with insert taking the arbitrary key and value its
public signature accepts. -/
inductive Reachable : Database → Prop where
  | init (name : String) (db : Database) : dbNew name = Res.ok db → Reachable db
  | insert (db : Database) (k : KeyType) (v : ValueType) (db2 : Database) :
      Reachable db → dbInsert db k v = Res.ok db2 → Reachable db2
  | delete_key (db : Database) (k : KeyType) (db2 : Database) :
      Reachable db → dbDeleteKey db k = Res.ok db2 → Reachable db2
  | delete_table (db : Database) (k : KeyType) (db2 : Database) :
      Reachable db → dbDeleteTable db k = Res.ok db2 → Reachable db2

/-- The database states reachable when every insert carries a record
value under a Record key, as the Set action of the channel worker
issues them. -/
inductive WReachable : Database → Prop where
  | init (name : String) (db : Database) : dbNew name = Res.ok db → WReachable db
  | set (db : Database) (k v : String) (db2 : Database) :
      WReachable db → dbSet db k v = Res.ok db2 → WReachable db2
  | delete_key (db : Database) (k : KeyType) (db2 : Database) :
      WReachable db → dbDeleteKey db k = Res.ok db2 → WReachable db2
  | delete_table (db : Database) (k : KeyType) (db2 : Database) :
      WReachable db → dbDeleteTable db k = Res.ok db2 → WReachable db2

theorem dbNew_tableOk {name : String} {db : Database}
    (h : dbNew name = Res.ok db) : tableOk db.root = true := by
  rw [dbNew] at h
  split at h
  · cases h
  · cases h; rfl

theorem dbInsert_record_tableOk {db : Database} {k v : String} {db2 : Database}
    (hok : tableOk db.root = true) (h : dbSet db k v = Res.ok db2) :
    tableOk db2.root = true := by
  rw [dbSet, dbInsert] at h
  split at h
  · cases h
  · cases h
  case _ key_routes hval =>
    split at h
    · cases h
    case _ last hlast =>
      split at h
      case _ t hwalk => cases h; exact insertWalk_tableOk key_routes hok hwalk
      case _ => cases h
      case _ => cases h

theorem dbDeleteKey_tableOk {db : Database} {k : KeyType} {db2 : Database}
    (hok : tableOk db.root = true) (h : dbDeleteKey db k = Res.ok db2) :
    tableOk db2.root = true := by
  rw [dbDeleteKey] at h
  split at h
  · cases h
  · split at h
    · cases h
    · cases h
    case _ key_routes hval =>
      split at h
      · cases h
      case _ last hlast =>
        split at h
        case _ t hdel => cases h; exact deleteAt_tableOk key_routes.dropLast hok hdel
        case _ => cases h
        case _ => cases h

theorem dbDeleteTable_tableOk {db : Database} {k : KeyType} {db2 : Database}
    (hok : tableOk db.root = true) (h : dbDeleteTable db k = Res.ok db2) :
    tableOk db2.root = true := by
  rw [dbDeleteTable] at h
  split at h
  · cases h
  · split at h
    · cases h
    · cases h
    case _ key_routes hval =>
      split at h
      · cases h
      case _ last hlast =>
        split at h
        case _ t hdel => cases h; exact deleteAt_tableOk key_routes.dropLast hok hdel
        case _ => cases h
        case _ => cases h

theorem regGet_regInsert_self (k : String) (v : List String) :
    ∀ hm : HookReg, regGet (regInsert hm k v) k = some v := by
  intro hm
  induction hm with
  | nil => simp [regInsert, regGet]
  | cons e rest ih =>
    obtain ⟨k2, v2⟩ := e
    rw [regInsert]
    cases hcmp : strCmp k k2 with
    | lt => simp [regGet]
    | eq => simp [regGet]
    | gt =>
      have hne : k ≠ k2 := by
        intro he
        rw [he, strCmp_self] at hcmp
        cases hcmp
      simp [regGet, hne, ih]

theorem regInsert_self_mem (k : String) (v : List String) :
    ∀ hm : HookReg, (k, v) ∈ regInsert hm k v := by
  intro hm
  induction hm with
  | nil => simp [regInsert]
  | cons e rest ih =>
    obtain ⟨k2, v2⟩ := e
    rw [regInsert]
    cases hcmp : strCmp k k2 with
    | lt => exact List.mem_cons_self _ _
    | eq => exact List.mem_cons_self _ _
    | gt => exact List.mem_cons_of_mem _ ih

theorem findIdx_eq_of_mem {x : String} :
    ∀ {L : List String}, x ∈ L →
      (L.findIdx? (fun y => y == x)).isSome = true := by
  intro L hmem
  cases h : L.findIdx? (fun y => y == x) with
  | some i => rfl
  | none =>
    rw [List.findIdx?_eq_none_iff] at h
    have := h x hmem
    simp at this

theorem findIdx_none_of_not_mem {x : String} {L : List String}
    (hx : x ∉ L) : L.findIdx? (fun y => y == x) = none := by
  rw [List.findIdx?_eq_none_iff]
  intro y hy
  simp only [beq_eq_false_iff_ne, ne_eq]
  intro he
  exact hx (he ▸ hy)

/-- The registry after HookManager::add succeeds: the old links of the
prefix (none when absent) with the new link pushed at the end. -/
def addResultReg (hm : HookReg) (pfx link : String) : HookReg :=
  regInsert hm pfx (((regGet hm pfx).getD []) ++ [link])

theorem matchingLinks_cons (p : String) (ls : List String) (rest : HookReg)
    (key : String) :
    matchingLinks ((p, ls) :: rest) key =
      if strStartsWith key p then ls ++ matchingLinks rest key
      else matchingLinks rest key := by
  rw [matchingLinks, matchingLinks, List.filter_cons]
  by_cases h : strStartsWith key p
  · simp [h]
  · simp [h]

theorem executeHooksPosts_eq (key value : String) :
    ∀ hm : HookReg, executeHooksPosts hm key value =
      (matchingLinks hm key).map (fun l => Post.mk l key value) := by
  intro hm
  induction hm with
  | nil => simp [executeHooksPosts, matchingLinks]
  | cons e rest ih =>
    obtain ⟨p, ls⟩ := e
    rw [executeHooksPosts, matchingLinks_cons, ih]
    by_cases h : strStartsWith key p
    · simp [h]
    · simp [h]

theorem writeMany_suspended :
    ∀ (items : List (String × LogItem)) (m : LoggerManager),
      m.state = LogState.Suspended →
      writeMany m items = Except.ok { m with buffer := m.buffer ++ items } := by
  intro items
  induction items with
  | nil => intro m hm; simp [writeMany]
  | cons ti rest ih =>
    intro m hm
    simp only [writeMany, LoggerManager.write, hm]
    rw [ih { m with state := LogState.Suspended, buffer := m.buffer ++ [(ti.1, ti.2)] } rfl]
    simp

/-- The database after Set of the key /root/root on a fresh root
database: the descent loop of insert stops immediately, because the
first route segment already equals the last one, so the record lands in
the root table itself. -/
def dbRootRoot : Database :=
  { name := "root",
    root := Table.cons (KeyType.Record "root") (ValueType.RecordPointer "v") Table.nil }

/-- Claim C1: after a successful Set(k, v), Get(k) returns v for every
valid key. The code refutes this: the key /root/root passes validation
and Set succeeds, but the insert loop guard compares each route segment
with the LAST segment by value, stops before descending, and stores the
record in the root table; Get(/root/root) then reports InvalidKey while
Get(/root) returns the value. This theorem evaluates the code at that
failing input. -/
theorem claim_C1_code_eval :
    dbSet dbRoot0 "/root/root" "v" = Res.ok dbRootRoot
    ∧ dbGet dbRootRoot "/root/root"
        = Res.error (ErrorKind.InvalidKey "Specified key does not exist")
    ∧ dbGet dbRootRoot "/root" = Res.ok (ValueType.RecordPointer "v") :=
  ⟨rfl, rfl, rfl⟩

/-- The reachable database violating the tag-match invariant: insert
accepts any ValueType, so a TablePointer can be stored under a Record
key. -/
def dbBadC2 : Database :=
  { name := "root",
    root := Table.cons (KeyType.Table "root")
      (ValueType.TablePointer
        (Table.cons (KeyType.Record "a") (ValueType.TablePointer Table.nil) Table.nil))
      Table.nil }

/-- Claim C2, counterexample: the public insert method takes an
arbitrary value, so from a fresh database one insert of a TablePointer
value under the Record key /root/a reaches a state in which a Record
key holds a table value: the tag-match invariant is false in a
reachable state. -/
theorem claim_C2_counterexample :
    Reachable dbBadC2 ∧ tableOk dbBadC2.root = false :=
  ⟨Reachable.insert dbRoot0 (KeyType.Record "/root/a")
      (ValueType.TablePointer Table.nil) dbBadC2
      (Reachable.init "root" dbRoot0 rfl) rfl,
    rfl⟩

/-- Claim C2, amended: when every insert stores a record value under a
Record key — as the Set action of the channel worker does — every
reachable state satisfies the tag invariant: Table keys hold
TablePointer values, Record keys hold RecordPointer values, and no
Queue key occurs, at every depth of the tree. -/
theorem claim_C2_amended (db : Database) (h : WReachable db) :
    tableOk db.root = true := by
  induction h with
  | init name db hnew => exact dbNew_tableOk hnew
  | set db k v db2 _ hstep ih => exact dbInsert_record_tableOk ih hstep
  | delete_key db k db2 _ hstep ih => exact dbDeleteKey_tableOk ih hstep
  | delete_table db k db2 _ hstep ih => exact dbDeleteTable_tableOk ih hstep

/-- Claim C2, witness: the amended theorem applied to the state reached
by one worker Set of /root/a on a fresh database. -/
theorem claim_C2_witness :
    tableOk (Table.cons (KeyType.Table "root")
      (ValueType.TablePointer
        (Table.cons (KeyType.Record "a") (ValueType.RecordPointer "v") Table.nil))
      Table.nil) = true :=
  claim_C2_amended _
    (WReachable.set dbRoot0 "/root/a" "v" _ (WReachable.init "root" dbRoot0 rfl) rfl)

/-- Claim C3, counterexample: the comparator of KeyType does not
compare the two names. The manual partial_cmp reads the name of self
for both sides, so Record a against Record b yields Equal although the
names differ lexicographically; and the derived Ord the BTreeMap
actually sorts by puts the Table tag before the Record tag regardless
of names, so Record a sorts after Table b. -/
theorem claim_C3_counterexample :
    keyPartialCmp (KeyType.Record "a") (KeyType.Record "b") = some Ordering.eq
    ∧ strCmp "a" "b" = Ordering.lt
    ∧ keyCmp (KeyType.Record "a") (KeyType.Table "b") = Ordering.gt := by
  exact ⟨rfl, rfl, rfl⟩

/-- Claim C3, amended: partial_cmp of KeyType compares the name of self
with itself, so its result depends only on the tags: Greater when self
is a Table and the other a Record, Less when self is a Record and the
other a Table, Equal otherwise — never a lexicographic name
comparison. -/
theorem claim_C3_amended (a b : KeyType) :
    keyPartialCmp a b =
      some (if a.is_table && b.is_record then Ordering.gt
        else if a.is_record && b.is_table then Ordering.lt
        else Ordering.eq) := by
  cases a <;> cases b <;> simp [keyPartialCmp, KeyType.get_key,
    KeyType.is_table, KeyType.is_record]

/-- The scenario of claim C4: insert the records /root/status,
/root/status/sub1, /root/status/sub2 and /root/node_name into a fresh
root database and list everything below /root. -/
def scen4 : Res (List KeyType) :=
  ((((dbSet dbRoot0 "/root/status" "okay").andThen
    (fun d => dbSet d "/root/status/sub1" "s1")).andThen
    (fun d => dbSet d "/root/status/sub2" "s2")).andThen
    (fun d => dbSet d "/root/node_name" "vps")).andThen
    (fun d => dbListKeys d "/root" ListType.All)

/-- Claim C4, counterexample: ListKeys(/root, All) does not return the
four records in the claimed order node_name, status, sub1, sub2. The
map orders Table keys before Record keys (derived Ord, tag first), and
the listing expands a subtable at the position of its Table key, so the
subtable entries come first. -/
theorem claim_C4_counterexample :
    scen4 ≠ Res.ok [KeyType.Record "/root/node_name", KeyType.Record "/root/status",
      KeyType.Record "/root/status/sub1", KeyType.Record "/root/status/sub2"] := by
  decide

/-- Claim C4, amended: the listing returns exactly the four Record keys
but in the order sub1, sub2, node_name, status: the Table key status
sorts before every Record key of the root table, and its children are
emitted at its position. -/
theorem claim_C4_amended :
    scen4 = Res.ok [KeyType.Record "/root/status/sub1",
      KeyType.Record "/root/status/sub2", KeyType.Record "/root/node_name",
      KeyType.Record "/root/status"] :=
  rfl

/-- Claim C5: every key-taking operation is claimed to reject a bad key
— the empty string included — with InvalidKey and no panic. The code
refutes the empty-string part: validate_key slices the first byte of
the key, which panics on the empty string, and every one of the five
operations reaches that slice. This theorem evaluates all five at the
empty key. -/
theorem claim_C5_code_eval :
    dbGet dbRoot0 "" = Res.panic
    ∧ dbSet dbRoot0 "" "v" = Res.panic
    ∧ dbDeleteKeyS dbRoot0 "" = Res.panic
    ∧ dbDeleteTableS dbRoot0 "" = Res.panic
    ∧ dbListKeys dbRoot0 "" ListType.All = Res.panic :=
  ⟨rfl, rfl, rfl, rfl, rfl⟩

/-- Claim C6: from the Suspended state with an empty buffer, n write
calls all succeed and buffer their items, and resume appends exactly
those n items to the file as one line each, in write order, empties the
buffer and opens the logger: for every path, prior file content and
item sequence. -/
theorem claim_C6 (path : String) (L : List String)
    (items : List (String × LogItem)) :
    writeMany (LoggerManager.mk path LogState.Suspended none [] L) items
      = Except.ok (LoggerManager.mk path LogState.Suspended none items L)
    ∧ LoggerManager.resume (LoggerManager.mk path LogState.Suspended none items L)
      = Except.ok (LoggerManager.mk path LogState.Open (some ()) []
          (L ++ items.map (fun ti => lineOf ti.1 ti.2))) := by
  constructor
  · have h := writeMany_suspended items
      (LoggerManager.mk path LogState.Suspended none [] L) rfl
    simpa using h
  · rw [LoggerManager.resume]
    simp

/-- Claim C7, counterexample: stop does not move the logger to the
Closed state. Starting a fresh logger and stopping it leaves the state
field Open with the handle dropped; the next write fails, but with the
not-started message of the Open branch, not the stream-closed error of
the Close branch. -/
theorem claim_C7_counterexample :
    (LoggerManager.new "p").start
      = Except.ok (LoggerManager.mk "p" LogState.Open (some ()) [] [])
    ∧ LoggerManager.stop (LoggerManager.mk "p" LogState.Open (some ()) [] [])
      = Except.ok (LoggerManager.mk "p" LogState.Open none [] [])
    ∧ LogState.Open ≠ LogState.Close
    ∧ LoggerManager.write (LoggerManager.mk "p" LogState.Open none [] [])
        "t" (LogItem.GetKey "/k")
      = Except.error "wanted to write log while logging was not started"
    ∧ "wanted to write log while logging was not started"
        ≠ "Stream is closed, start required for logger" :=
  ⟨rfl, rfl, by decide, rfl, by decide⟩

/-- Claim C7, amended: stop only drops the file handle (and errors when
none is held); it leaves the state field unchanged — in particular it
never produces the Closed state — and a write after a stop from the
Open state fails with the not-started error, not the stream-closed
one. -/
theorem claim_C7_amended (m m2 : LoggerManager) (h : m.stop = Except.ok m2) :
    m2 = { m with file := none }
    ∧ m2.state = m.state
    ∧ (m.state = LogState.Open → ∀ ts it,
        m2.write ts it = Except.error "wanted to write log while logging was not started") := by
  rw [LoggerManager.stop] at h
  split at h
  · cases h
    refine ⟨rfl, rfl, ?_⟩
    intro hst ts it
    simp [LoggerManager.write, hst]
  · cases h

/-- Claim C7, witness: the amended theorem at the logger freshly
started on path p and then stopped. -/
theorem claim_C7_witness :
    (LoggerManager.mk "p" LogState.Open none [] []).state = LogState.Open
    ∧ LoggerManager.write (LoggerManager.mk "p" LogState.Open none [] [])
        "t" (LogItem.GetKey "/k")
      = Except.error "wanted to write log while logging was not started" := by
  have h := claim_C7_amended
    (LoggerManager.mk "p" LogState.Open (some ()) [] [])
    (LoggerManager.mk "p" LogState.Open none [] [])
    rfl
  exact ⟨h.2.1, h.2.2 rfl "t" (LogItem.GetKey "/k")⟩

/-- Claim C8: registering a hook absent from the registry succeeds, and
repeating the same registration immediately is rejected with the
Already defined error, for every starting registry. -/
theorem claim_C8 (hm : HookReg) (pfx link : String)
    (habs : ∀ ls, regGet hm pfx = some ls → link ∉ ls) :
    hookAdd hm pfx link = Except.ok (addResultReg hm pfx link)
    ∧ hookAdd (addResultReg hm pfx link) pfx link
        = Except.error (HookManagerResponse.Error "Already defined") := by
  constructor
  · rw [hookAdd, addResultReg]
    cases hg : regGet hm pfx with
    | none => simp
    | some ls =>
      simp [findIdx_none_of_not_mem (habs ls hg)]
  · have hmem : link ∈ ((regGet hm pfx).getD []) ++ [link] := by simp
    obtain ⟨i, hi⟩ := Option.isSome_iff_exists.mp (findIdx_eq_of_mem hmem)
    simp [hookAdd, addResultReg, regGet_regInsert_self, hi]

/-- Claim C8, witness: the theorem at the empty registry with the
prefix /root/status and the link http of a. -/
theorem claim_C8_witness :
    hookAdd [] "/root/status" "http://a"
      = Except.ok (addResultReg [] "/root/status" "http://a")
    ∧ hookAdd (addResultReg [] "/root/status" "http://a") "/root/status" "http://a"
        = Except.error (HookManagerResponse.Error "Already defined") :=
  claim_C8 [] "/root/status" "http://a" (by intro ls h; simp [regGet] at h)

/-- The registry of the hook scenario, built by the three
registrations: status to a, status to b, arpa to a. -/
def reg3build : Except HookManagerResponse HookReg :=
  Except.bind (hookAdd [] "/root/status" "http://a")
    (fun r => Except.bind (hookAdd r "/root/status" "http://b")
      (fun r2 => hookAdd r2 "/root/arpa" "http://a"))

/-- The registry the three registrations produce, in map order. -/
def reg3 : HookReg :=
  [("/root/arpa", ["http://a"]), ("/root/status", ["http://a", "http://b"])]

/-- Claim C9, counterexample: removing the only link of a prefix is
reachable and leaves the prefix stored with an empty link list; then
execute_hooks on a key starting with that stored prefix issues no
request and returns none, although the claim demands some of the total
link count (zero) whenever a stored prefix matches the key. -/
theorem claim_C9_counterexample :
    Except.bind (hookAdd [] "/root/status" "http://a")
        (fun r => hookRemove r "/root/status" "http://a")
      = Except.ok [("/root/status", [])]
    ∧ strStartsWith "/root/status/dns1" "/root/status" = true
    ∧ executeHooks [("/root/status", [])] "/root/status/dns1" "okay" = ([], none) :=
  ⟨rfl, by decide, rfl⟩

theorem wrapI32_of_lt {n : Nat} (h : n < 2147483648) : wrapI32 n = (n : Int) := by
  have h32 : n < 4294967296 := lt_trans h (by norm_num)
  rw [wrapI32, Nat.mod_eq_of_lt h32, if_pos h]

/-- Claim C9, amended: execute_hooks attempts one POST per link of
every stored prefix the key starts with, in registry order. Its counter
is an i32, so what it returns is the attempt count wrapped into the i32
range (release semantics; a debug build panics past 2 to the 31st):
none exactly when the wrapped count is zero, some of it otherwise.
While the count stays below 2 to the 31st this is none exactly when the
total is zero — which covers both no stored prefix matching and a
matching prefix whose link list is empty — and some of the total
otherwise. In the three-hook scenario registry the counts are 2 for
/root/status/dns1, none for /root/no_exist and 1 for
/root/arpa/server1. -/
theorem claim_C9_amended :
    (∀ (hm : HookReg) (key value : String),
      (executeHooks hm key value).1
          = (matchingLinks hm key).map (fun l => Post.mk l key value)
      ∧ (executeHooks hm key value).2
          = (if wrapI32 (matchingLinks hm key).length = 0 then none
            else some (wrapI32 (matchingLinks hm key).length))
      ∧ ((matchingLinks hm key).length < 2147483648 →
          (executeHooks hm key value).2
            = (if (matchingLinks hm key).length = 0 then none
              else some (((matchingLinks hm key).length : Nat) : Int))))
    ∧ reg3build = Except.ok reg3
    ∧ (executeHooks reg3 "/root/status/dns1" "okay").2 = some 2
    ∧ (executeHooks reg3 "/root/no_exist" "okay").2 = none
    ∧ (executeHooks reg3 "/root/arpa/server1" "value").2 = some 1 := by
  refine ⟨?_, rfl, rfl, rfl, rfl⟩
  intro hm key value
  have hp := executeHooksPosts_eq key value hm
  refine ⟨hp, ?_, ?_⟩
  · simp only [executeHooks, hp, List.length_map]
  · intro hlt
    simp only [executeHooks, hp, List.length_map, wrapI32_of_lt hlt]
    cases h0 : (matchingLinks hm key).length with
    | zero => simp
    | succ n => simp; omega

/-- Claim C10: removing the last link under a prefix keeps the prefix
in the registry with an empty link list; a get of that prefix then
answers Hook with the empty list rather than Not found, and a list
query the prefix starts with still contains the prefix. -/
theorem claim_C10 (hm : HookReg) (p l : String)
    (h : regGet hm p = some [l]) :
    hookRemove hm p l = Except.ok (regInsert hm p [])
    ∧ regGet (regInsert hm p []) p = some []
    ∧ hookGetResponse (regInsert hm p []) p = HookManagerResponse.Hook p []
    ∧ ∀ q, strStartsWith p q = true →
        (p, ([] : List String)) ∈ hookList (regInsert hm p []) q := by
  have hg : regGet (regInsert hm p []) p = some [] := regGet_regInsert_self p [] hm
  refine ⟨?_, hg, ?_, ?_⟩
  · rw [hookRemove, h]
    simp [List.findIdx?_cons]
  · rw [hookGetResponse, hg]
  · intro q hq
    rw [hookList, List.mem_filter]
    exact ⟨regInsert_self_mem p [] hm, hq⟩

/-- Claim C10, witness: the theorem at the one-entry registry holding
the link http of a under /root/status, with the list query /root. -/
theorem claim_C10_witness :
    hookRemove [("/root/status", ["http://a"])] "/root/status" "http://a"
      = Except.ok [("/root/status", [])]
    ∧ regGet [("/root/status", ([] : List String))] "/root/status" = some []
    ∧ ("/root/status", ([] : List String))
        ∈ hookList [("/root/status", [])] "/root" := by
  have h := claim_C10 [("/root/status", ["http://a"])] "/root/status" "http://a"
    (by simp [regGet])
  exact ⟨h.1, h.2.1, h.2.2.2 "/root" (by decide)⟩

end DatastoreRS
